import Mathlib

/-!
Verification of the file-set + linear undo/redo history model of the
godot-ai-helper editor front-end.

The definitions below are a shallow embedding of the App component's state
and its mutation handlers (`pushToHistory`, `undo`, `redo`,
`updateActiveFileContent`, `handleFileCreate`, `handleFileDelete`), of the
FileExplorer's `handleCreateSubmit` guard, and of the state effect of the
Tools component's `handleAction` on the code-generation path.  JavaScript
arrays become `List`, the React `useState` cells become fields of
`AppState`, and the random `simpleId()` generator becomes an id supplied by
the caller (an oracle), since `Math.random` has no functional counterpart.
-/

/-- A project file: `{ id, name, language, content }` from `types.ts` /
the `ProjectFile` interface. -/
structure ProjectFile where
  id : String
  name : String
  language : String
  content : String
deriving DecidableEq, Repr, Inhabited

/-- A snapshot of the whole project: the `files` array. -/
abbrev Snapshot := List ProjectFile

/-- The App component's core state: the `files`, `activeFileId`, `history`
and `historyIndex` useState cells.  UI-only cells (mode, chat, explanation,
generated image, loading flags) are outside the core model. -/
structure AppState where
  files : Snapshot
  activeFileId : String
  history : List Snapshot
  historyIndex : Nat
deriving DecidableEq, Repr

/-- The seed GDScript content of `player.gd` (INITIAL_CODE in the source). -/
def INITIAL_CODE : String :=
  "extends CharacterBody2D\n\nconst SPEED = 300.0\nconst JUMP_VELOCITY = -400.0\n\nvar gravity = ProjectSettings.get_setting(\"physics/2d/default_gravity\")\n\nfunc _physics_process(delta):\n\tif not is_on_floor():\n\t\tvelocity.y += gravity * delta\n\n\tif Input.is_action_just_pressed(\"ui_accept\") and is_on_floor():\n\t\tvelocity.y = JUMP_VELOCITY\n\n\tvar direction = Input.get_axis(\"ui_left\", \"ui_right\")\n\tif direction:\n\t\tvelocity.x = direction * SPEED\n\telse:\n\t\tvelocity.x = move_toward(velocity.x, 0, SPEED)\n\n\tmove_and_slide()\n"

/-- The two seed files (INITIAL_FILES in the source). -/
def INITIAL_FILES : Snapshot :=
  [ { id := "1", name := "player.gd", language := "gdscript", content := INITIAL_CODE },
    { id := "2", name := "game_manager.gd", language := "gdscript",
      content := "extends Node\n\nvar score: int = 0\n" } ]

/-- The initial App state: `files = INITIAL_FILES`, `activeFileId = "1"`,
`history = [INITIAL_FILES]`, `historyIndex = 0`. -/
def initState : AppState :=
  { files := INITIAL_FILES, activeFileId := "1",
    history := [INITIAL_FILES], historyIndex := 0 }

/-- Source `activeFile = files.find(f => f.id === activeFileId) || files[0]`.
In JavaScript the whole expression is `undefined` exactly when the find
misses and the array is empty, which `Option` captures. -/
def activeFile (s : AppState) : Option ProjectFile :=
  (s.files.find? (fun f => f.id == s.activeFileId)).orElse (fun _ => s.files.head?)

/-- Source `pushToHistory(newFiles)`: truncate the history to positions
`0..historyIndex`, append the new snapshot, point the index at the new last
position, and make the new snapshot the visible file list. -/
def pushToHistory (s : AppState) (newFiles : Snapshot) : AppState :=
  let newHistory := s.history.take (s.historyIndex + 1) ++ [newFiles]
  { s with history := newHistory,
           historyIndex := newHistory.length - 1,
           files := newFiles }

/-- Source `undo()`: when `historyIndex > 0`, decrement the index and show
`history[newIndex]`; otherwise do nothing.  Out-of-range indexing (which on
the invariant never happens) is modelled by `getD` with default `[]`. -/
def undo (s : AppState) : AppState :=
  if 0 < s.historyIndex then
    let newIndex := s.historyIndex - 1
    { s with historyIndex := newIndex, files := s.history.getD newIndex [] }
  else s

/-- Source `redo()`: when `historyIndex < history.length - 1`, increment the
index and show `history[newIndex]`; otherwise do nothing. -/
def redo (s : AppState) : AppState :=
  if s.historyIndex < s.history.length - 1 then
    let newIndex := s.historyIndex + 1
    { s with historyIndex := newIndex, files := s.history.getD newIndex [] }
  else s

/-- The snapshot transformation inside `updateActiveFileContent`:
`files.map(f => f.id === id ? { ...f, content: newContent } : f)`, with the
targeted id made a parameter (the source instantiates it with
`activeFileId`). -/
def updateFileContent (files : Snapshot) (id newContent : String) : Snapshot :=
  files.map (fun f => if f.id == id then { f with content := newContent } else f)

/-- Source `updateActiveFileContent(newContent)`: rewrite the active file's
content and push the resulting snapshot as one history entry. -/
def updateActiveFileContent (s : AppState) (newContent : String) : AppState :=
  pushToHistory s (updateFileContent s.files s.activeFileId newContent)

/-- JavaScript's `String.prototype.endsWith`, expressed on character lists
(kernel-computable; the source applies it only to plain ASCII suffixes). -/
def strEndsWith (s suffix : String) : Bool :=
  suffix.data.isSuffixOf s.data

/-- JavaScript's `String.prototype.trim`: strip leading and trailing
whitespace (kernel-computable counterpart of `String.trim`). -/
def strTrim (s : String) : String :=
  ⟨((s.data.dropWhile Char.isWhitespace).reverse.dropWhile Char.isWhitespace).reverse⟩

/-- Source `handleFileCreate(name)`: build a new file whose language and
default content follow the `.json` suffix test, append it, push one history
entry, and make the new file active.  `newId` stands for the random
`simpleId()` result. -/
def handleFileCreate (s : AppState) (name : String) (newId : String) : AppState :=
  let newFile : ProjectFile :=
    { id := newId, name := name,
      language := if strEndsWith name ".json" then "json" else "gdscript",
      content := if strEndsWith name ".json" then "\x7b\x7d" else "extends Node\n" }
  { pushToHistory s (s.files ++ [newFile]) with activeFileId := newId }

/-- Source `handleFileDelete(id)`: refuse when at most one file remains;
otherwise drop the files with the given id, push one history entry, and if
the active file was deleted repoint `activeFileId` to `updatedFiles[0].id`.
When the filtered list is empty (possible only with duplicated ids, which
the reachable states rule out) the source would throw on `updatedFiles[0].id`
after the push has already been applied; the model keeps the old id then. -/
def handleFileDelete (s : AppState) (id : String) : AppState :=
  if s.files.length ≤ 1 then s
  else
    let updatedFiles := s.files.filter (fun f => f.id != id)
    let s1 := pushToHistory s updatedFiles
    if s.activeFileId == id then
      { s1 with activeFileId :=
          match updatedFiles.head? with
          | some f => f.id
          | none => s.activeFileId }
    else s1

/-- FileExplorer's `handleCreateSubmit`: only a name that is non-empty after
trimming reaches `onFileCreate`, and it is passed trimmed; an
empty-after-trim name changes nothing. -/
def handleCreateSubmit (s : AppState) (newFileName : String) (newId : String) : AppState :=
  if strTrim newFileName ≠ "" then handleFileCreate s (strTrim newFileName) newId else s

/-- Outcome of an external `generateGodotCode` call: either a parsed
`{ code, explanation }` object or a thrown error with a message. -/
inductive GenResult where
  | ok (code : String) (explanation : String)
  | error (msg : String)
deriving DecidableEq, Repr

/-- State effect of the code-generation branch of Tools' `handleAction` on
the core state: on success the returned code is applied through
`onCodeUpdate = updateActiveFileContent` (one push), on a thrown error only
the string `Error: ...` is surfaced and the core state is left alone.  The
returned string is the explanation handed to `onExplanation`. -/
def handleAction (s : AppState) (r : GenResult) : AppState × String :=
  match r with
  | .ok code explanation => (updateActiveFileContent s code, explanation)
  | .error msg => (s, "Error: " ++ msg)

/-- History-level operations: an arbitrary push, undo, redo (the
HistoryController interface). -/
inductive HOp where
  | push (newFiles : Snapshot)
  | undo
  | redo
deriving Repr

/-- One history-level operation applied to the state. -/
def hstep (s : AppState) : HOp → AppState
  | .push newFiles => pushToHistory s newFiles
  | .undo => undo s
  | .redo => redo s

/-- A sequence of history-level operations applied left to right. -/
def hrun (s : AppState) : List HOp → AppState
  | [] => s
  | op :: rest => hrun (hstep s op) rest

/-- User-level operations of the App component.  `create` carries the
oracle id that stands for `simpleId()`; `select` is FileExplorer's
`onFileSelect`. -/
inductive Op where
  | create (name : String) (newId : String)
  | update (newContent : String)
  | delete (id : String)
  | select (id : String)
  | undo
  | redo
deriving Repr

/-- One user-level operation applied to the state. -/
def step (s : AppState) : Op → AppState
  | .create name newId => handleFileCreate s name newId
  | .update newContent => updateActiveFileContent s newContent
  | .delete id => handleFileDelete s id
  | .select id => { s with activeFileId := id }
  | .undo => undo s
  | .redo => redo s

/-- A sequence of user-level operations applied left to right. -/
def run (s : AppState) : List Op → AppState
  | [] => s
  | op :: rest => run (step s op) rest

/-- Along a trace, every id handed to `create` is fresh for the then-current
file list — the property `simpleId()` is relied upon to deliver. -/
def freshAlong (s : AppState) : List Op → Bool
  | [] => true
  | op :: rest =>
      (match op with
       | .create _ newId => !((s.files.map (fun f => f.id)).contains newId)
       | _ => true)
      && freshAlong (step s op) rest

/-!
History invariants and helper lemmas.
-/

/-- History invariant: the log is non-empty, the index is in range, and the
log entry at the index is the visible file list. -/
def HistInv (s : AppState) : Prop :=
  s.history ≠ [] ∧ s.historyIndex < s.history.length ∧
    s.history.getD s.historyIndex [] = s.files

/-- A well-formed snapshot: non-empty, with pairwise-distinct file ids. -/
def GoodSnap (fs : Snapshot) : Prop :=
  fs ≠ [] ∧ (fs.map (fun f => f.id)).Nodup

/-- Full state invariant: the history invariant plus well-formedness of
every snapshot stored in the log. -/
def StateInv (s : AppState) : Prop :=
  HistInv s ∧ ∀ snap ∈ s.history, GoodSnap snap

theorem getD_concat (l : List Snapshot) (a : Snapshot) :
    (l ++ [a]).getD l.length [] = a := by
  induction l with
  | nil => rfl
  | cons x xs ih => simp [ih]

theorem histInv_initState : HistInv initState :=
  ⟨by simp [initState], by simp [initState], rfl⟩

theorem histInv_pushToHistory (s : AppState) (n : Snapshot) :
    HistInv (pushToHistory s n) := by
  refine ⟨by simp [pushToHistory], by simp [pushToHistory], ?_⟩
  show (s.history.take (s.historyIndex + 1) ++ [n]).getD
      ((s.history.take (s.historyIndex + 1) ++ [n]).length - 1) [] = n
  simp [getD_concat (s.history.take (s.historyIndex + 1)) n]

theorem histInv_undo (s : AppState) (h : HistInv s) : HistInv (undo s) := by
  obtain ⟨h1, h2, _h3⟩ := h
  unfold undo
  split
  · exact ⟨h1, by simp; omega, rfl⟩
  · exact ⟨h1, h2, _h3⟩

theorem histInv_redo (s : AppState) (h : HistInv s) : HistInv (redo s) := by
  obtain ⟨h1, h2, _h3⟩ := h
  unfold redo
  split
  · exact ⟨h1, by simp; omega, rfl⟩
  · exact ⟨h1, h2, _h3⟩

theorem histInv_hstep (s : AppState) (op : HOp) (h : HistInv s) :
    HistInv (hstep s op) := by
  cases op with
  | push n => exact histInv_pushToHistory s n
  | undo => exact histInv_undo s h
  | redo => exact histInv_redo s h

theorem histInv_hrun (ops : List HOp) :
    ∀ s : AppState, HistInv s → HistInv (hrun s ops) := by
  induction ops with
  | nil => intro s h; exact h
  | cons op rest ih => intro s h; exact ih (hstep s op) (histInv_hstep s op h)

/-- C1: for every sequence of push, undo and redo operations starting from
the initial state (whose log holds the single seed snapshot at index 0),
the history log is non-empty, the index satisfies
`historyIndex < history.length`, and the log entry at the index equals the
visible file list. -/
theorem history_invariant_hrun (ops : List HOp) :
    (hrun initState ops).history ≠ [] ∧
    (hrun initState ops).historyIndex < (hrun initState ops).history.length ∧
    (hrun initState ops).history.getD (hrun initState ops).historyIndex []
      = (hrun initState ops).files :=
  histInv_hrun ops initState histInv_initState

/-!
C2: push semantics and branch discard.
-/

/-- C2 counterexample: the claim says that after `push(A)`, `undo()`,
`push(B)` the log no longer contains `A` — but pushing a snapshot equal in
value to the one already current (allowed: push does not deduplicate)
leaves a copy of `A` in the retained prefix.  Concretely, from the initial
state, `push(INITIAL_FILES); undo(); push([])` yields the log
`[INITIAL_FILES, []]`, which still contains `A = INITIAL_FILES`. -/
theorem push_branch_discard_counterexample :
    INITIAL_FILES ∈
      (pushToHistory (undo (pushToHistory initState INITIAL_FILES)) []).history := by
  show INITIAL_FILES ∈ [INITIAL_FILES, []]
  exact List.mem_cons_self _ _

/-- C2 amended: `push(newSnapshot)` truncates the log to `[0..index]`,
appends the snapshot, points the index at the new last position and makes
the snapshot visible; and after `push(A)`, `undo()`, `push(B)` (from a
state with a non-empty log) the log is exactly the retained prefix followed
by `B`, so `A` is gone whenever it differs from `B` and from every snapshot
of the retained prefix, and `redo` right after `push(B)` is a no-op. -/
theorem push_branch_discard_amended (s : AppState) (A B : Snapshot) :
    (pushToHistory s A).history = s.history.take (s.historyIndex + 1) ++ [A] ∧
    (pushToHistory s A).historyIndex
      = (s.history.take (s.historyIndex + 1) ++ [A]).length - 1 ∧
    (pushToHistory s A).files = A ∧
    (s.history ≠ [] →
      (pushToHistory (undo (pushToHistory s A)) B).history
        = s.history.take (s.historyIndex + 1) ++ [B] ∧
      (A ∉ s.history.take (s.historyIndex + 1) → A ≠ B →
        A ∉ (pushToHistory (undo (pushToHistory s A)) B).history) ∧
      redo (pushToHistory (undo (pushToHistory s A)) B)
        = pushToHistory (undo (pushToHistory s A)) B) := by
  refine ⟨rfl, rfl, rfl, fun hne => ?_⟩
  have hTne : s.history.take (s.historyIndex + 1) ≠ [] := by
    rw [Ne, List.take_eq_nil_iff]
    simp [hne]
  have hTlen : 1 ≤ (s.history.take (s.historyIndex + 1)).length :=
    List.length_pos.mpr hTne
  have h2 : (pushToHistory s A).historyIndex
      = (s.history.take (s.historyIndex + 1)).length := by
    show (s.history.take (s.historyIndex + 1) ++ [A]).length - 1
      = (s.history.take (s.historyIndex + 1)).length
    simp
  have hpos : 0 < (pushToHistory s A).historyIndex := by rw [h2]; omega
  have hu : undo (pushToHistory s A)
      = { pushToHistory s A with
          historyIndex := (pushToHistory s A).historyIndex - 1,
          files := (pushToHistory s A).history.getD
            ((pushToHistory s A).historyIndex - 1) [] } := by
    unfold undo
    rw [if_pos hpos]
  have h4 : (pushToHistory (undo (pushToHistory s A)) B).history
      = s.history.take (s.historyIndex + 1) ++ [B] := by
    show (undo (pushToHistory s A)).history.take
        ((undo (pushToHistory s A)).historyIndex + 1) ++ [B]
      = s.history.take (s.historyIndex + 1) ++ [B]
    rw [hu]
    show (pushToHistory s A).history.take
        ((pushToHistory s A).historyIndex - 1 + 1) ++ [B]
      = s.history.take (s.historyIndex + 1) ++ [B]
    rw [h2, Nat.sub_add_cancel hTlen]
    show (s.history.take (s.historyIndex + 1) ++ [A]).take
        (s.history.take (s.historyIndex + 1)).length ++ [B]
      = s.history.take (s.historyIndex + 1) ++ [B]
    rw [List.take_left]
  have h5 : (pushToHistory (undo (pushToHistory s A)) B).historyIndex
      = (s.history.take (s.historyIndex + 1)).length := by
    show (pushToHistory (undo (pushToHistory s A)) B).history.length - 1
      = (s.history.take (s.historyIndex + 1)).length
    rw [h4]
    simp
  refine ⟨h4, fun hAn hAB => ?_, ?_⟩
  · rw [h4]
    intro hmem
    rcases List.mem_append.mp hmem with h | h
    · exact hAn h
    · exact hAB (List.mem_singleton.mp h)
  · unfold redo
    rw [if_neg]
    rw [h4, h5]
    simp

/-- C2 amended witness: from the initial state, with `A = []` (absent from
the retained prefix) and `B = INITIAL_FILES` (different from `A`), the
branch-discard consequence holds concretely. -/
theorem push_branch_discard_amended_witness :
    initState.history ≠ [] ∧
    ([] : Snapshot) ∉ initState.history.take (initState.historyIndex + 1) ∧
    ([] : Snapshot) ≠ INITIAL_FILES ∧
    ([] : Snapshot) ∉
      (pushToHistory (undo (pushToHistory initState ([] : Snapshot)))
        INITIAL_FILES).history := by
  refine ⟨by decide, by decide, by decide, ?_⟩
  exact ((push_branch_discard_amended initState [] INITIAL_FILES).2.2.2
    (by decide)).2.1 (by decide) (by decide)

/-!
C3: undo and redo, exact behavior and no-op edges.
-/

/-- C3: `undo()` with a positive index decrements the index by one, shows
`log[index]`, and leaves the log and the active-file pointer alone; at
index 0 it is a complete no-op.  `redo()` with the index strictly before
the tail increments it by one and shows `log[index]`; at the tail (and
beyond) it is a complete no-op. -/
theorem undo_redo_spec (s : AppState) :
    (0 < s.historyIndex →
      (undo s).historyIndex = s.historyIndex - 1 ∧
      (undo s).files = s.history.getD (s.historyIndex - 1) [] ∧
      (undo s).history = s.history ∧
      (undo s).activeFileId = s.activeFileId) ∧
    (s.historyIndex = 0 → undo s = s) ∧
    (s.historyIndex < s.history.length - 1 →
      (redo s).historyIndex = s.historyIndex + 1 ∧
      (redo s).files = s.history.getD (s.historyIndex + 1) [] ∧
      (redo s).history = s.history ∧
      (redo s).activeFileId = s.activeFileId) ∧
    (¬ s.historyIndex < s.history.length - 1 → redo s = s) := by
  refine ⟨fun h => ?_, fun h => ?_, fun h => ?_, fun h => ?_⟩
  · unfold undo
    rw [if_pos h]
    exact ⟨rfl, rfl, rfl, rfl⟩
  · unfold undo
    rw [if_neg (by omega)]
  · unfold redo
    rw [if_pos h]
    exact ⟨rfl, rfl, rfl, rfl⟩
  · unfold redo
    rw [if_neg h]

/-- C3 witness: each of the four cases discharged on a concrete state —
the initial state after one push (undoable, and at the tail), the state
after undoing it (redoable), and the initial state itself (index 0). -/
theorem undo_redo_spec_witness :
    (undo (pushToHistory initState [])).historyIndex = 0 ∧
    undo initState = initState ∧
    (redo (undo (pushToHistory initState []))).historyIndex = 1 ∧
    redo (pushToHistory initState []) = pushToHistory initState [] := by
  refine ⟨((undo_redo_spec (pushToHistory initState [])).1 (by decide)).1,
    (undo_redo_spec initState).2.1 rfl,
    ((undo_redo_spec (undo (pushToHistory initState []))).2.2.1 (by decide)).1,
    (undo_redo_spec (pushToHistory initState [])).2.2.2 (by decide)⟩

/-!
C4: deleting the last remaining file is refused.
-/

/-- C4: on a state whose snapshot has exactly one file, `handleFileDelete`
is a complete no-op for every id — files, history, index and active pointer
are all unchanged, so no history entry is created. -/
theorem delete_last_file_noop (s : AppState) (id : String)
    (h : s.files.length = 1) : handleFileDelete s id = s := by
  unfold handleFileDelete
  rw [if_pos (by omega)]

/-- C4 witness: after deleting file `"2"` from the initial state exactly
one file remains, and deleting again (any id) changes nothing. -/
theorem delete_last_file_noop_witness :
    (handleFileDelete initState "2").files.length = 1 ∧
    handleFileDelete (handleFileDelete initState "2") "1"
      = handleFileDelete initState "2" :=
  ⟨by decide, delete_last_file_noop (handleFileDelete initState "2") "1" (by decide)⟩

/-!
C5: updateFileContent only touches the matched file's content.
-/

/-- C5: `updateFileContent` keeps the length, order, and every file's `id`,
`name` and `language`; a file whose id differs from the target is returned
untouched, the matched file gets exactly the new content; and when no file
carries the target id the whole list is value-equal to the input.  (The
source instantiates the target id with `activeFileId`, see
`updateActiveFileContent`.) -/
theorem updateFileContent_frame (files : Snapshot) (id c : String) :
    (updateFileContent files id c).length = files.length ∧
    List.Forall₂
      (fun f g => g.id = f.id ∧ g.name = f.name ∧ g.language = f.language ∧
        (f.id ≠ id → g = f) ∧ (f.id = id → g.content = c))
      files (updateFileContent files id c) ∧
    ((∀ f ∈ files, f.id ≠ id) → updateFileContent files id c = files) := by
  refine ⟨by simp [updateFileContent], ?_, ?_⟩
  · induction files with
    | nil => exact List.Forall₂.nil
    | cons f rest ih =>
      refine List.Forall₂.cons ?_ ih
      by_cases h : f.id = id
      · have hb : (f.id == id) = true := beq_iff_eq.mpr h
        simp only [updateFileContent, List.map_cons, hb, if_true]
        simp [h]
      · have hb : (f.id == id) = false := beq_eq_false_iff_ne.mpr h
        simp only [updateFileContent, List.map_cons, hb, if_false]
        simp [h]
  · intro hall
    induction files with
    | nil => rfl
    | cons f rest ih =>
      have hb : (f.id == id) = false :=
        beq_eq_false_iff_ne.mpr (hall f (List.mem_cons_self f rest))
      simp only [updateFileContent, List.map_cons, hb, if_false, List.cons.injEq]
      exact ⟨rfl, ih (fun g hg => hall g (List.mem_cons_of_mem f hg))⟩

/-- C5 witness: updating an absent id on the seed snapshot returns it
value-equal, and the Forall₂ frame relation holds for a present id. -/
theorem updateFileContent_frame_witness :
    (∀ f ∈ INITIAL_FILES, f.id ≠ "9") ∧
    updateFileContent INITIAL_FILES "9" "var x = 0\n" = INITIAL_FILES ∧
    (updateFileContent INITIAL_FILES "1" "var x = 0\n").length
      = INITIAL_FILES.length := by
  refine ⟨by decide, (updateFileContent_frame INITIAL_FILES "9" "var x = 0\n").2.2
    (by decide), (updateFileContent_frame INITIAL_FILES "1" "var x = 0\n").1⟩

/-!
C7: a failed generation call leaves the core state untouched.
-/

/-- C7: when the external `generateGodotCode` call throws, `handleAction`
only surfaces the error string; the history log, the index, the file list,
and the resolved active file (hence its content) are identical to their
values before the call, and no history entry is created. -/
theorem generation_error_preserves_state (s : AppState) (msg : String) :
    (handleAction s (.error msg)).1 = s ∧
    (handleAction s (.error msg)).1.history = s.history ∧
    (handleAction s (.error msg)).1.historyIndex = s.historyIndex ∧
    (handleAction s (.error msg)).1.files = s.files ∧
    activeFile (handleAction s (.error msg)).1 = activeFile s ∧
    (activeFile (handleAction s (.error msg)).1).map (fun f => f.content)
      = (activeFile s).map (fun f => f.content) ∧
    (handleAction s (.error msg)).2 = "Error: " ++ msg :=
  ⟨rfl, rfl, rfl, rfl, rfl, rfl, rfl⟩

/-!
C8: file creation — append semantics, suffix-driven defaults, empty-name
rejection at the submit guard.
-/

/-- C8: with a name that is non-empty after trimming, the submit path
appends exactly one file at the end — carrying the oracle id, the trimmed
name, and language/content defaulted by the `.json` suffix test (empty
object literal for `.json` names, the minimal script skeleton otherwise) —
leaving the existing files unchanged and in order; an empty-after-trim name
is rejected with no state change at all. -/
theorem createFile_spec (s : AppState) (name newId : String) :
    (strTrim name ≠ "" →
      (handleCreateSubmit s name newId).files
        = s.files ++
          [{ id := newId, name := strTrim name,
             language := if strEndsWith (strTrim name) ".json" then "json"
               else "gdscript",
             content := if strEndsWith (strTrim name) ".json" then "\x7b\x7d"
               else "extends Node\n" }] ∧
      (handleCreateSubmit s name newId).files.length = s.files.length + 1 ∧
      (handleCreateSubmit s name newId).files.take s.files.length = s.files) ∧
    (strTrim name = "" → handleCreateSubmit s name newId = s) := by
  constructor
  · intro h
    have hs : handleCreateSubmit s name newId
        = handleFileCreate s (strTrim name) newId := by
      unfold handleCreateSubmit
      rw [if_pos h]
    refine ⟨by rw [hs]; rfl, ?_, ?_⟩
    · rw [hs]
      show (s.files ++ [_]).length = s.files.length + 1
      simp
    · rw [hs]
      show (s.files ++ [_]).take s.files.length = s.files
      rw [List.take_left]
  · intro h
    unfold handleCreateSubmit
    rw [if_neg (by simp [h])]

/-- C8 witness: a `.json` name survives trimming and appends a third file
with the structured-data default content, while a blank name is rejected
unchanged. -/
theorem createFile_spec_witness :
    strTrim " data.json " ≠ "" ∧
    (handleCreateSubmit initState " data.json " "a1b2c3d4e").files
      = INITIAL_FILES ++
        [{ id := "a1b2c3d4e", name := "data.json", language := "json",
           content := "\x7b\x7d" }] ∧
    strTrim "   " = "" ∧
    handleCreateSubmit initState "   " "a1b2c3d4e" = initState := by
  have h := createFile_spec initState " data.json " "a1b2c3d4e"
  refine ⟨by decide, ?_, by decide, (createFile_spec initState "   " "a1b2c3d4e").2 (by decide)⟩
  have h1 := (h.1 (by decide)).1
  rw [h1]
  show INITIAL_FILES ++ _ = INITIAL_FILES ++ _
  congr 1

/-!
C6: the active-file pointer after deletion and after undo.
-/

/-- Resolution is total on a non-empty snapshot: `activeFile` returns a
file of the visible list, either the one matching the stored id or the
fallback `files[0]`. -/
theorem activeFile_mem_of_ne_nil (s : AppState) (h : s.files ≠ []) :
    ∃ f, activeFile s = some f ∧ f ∈ s.files := by
  unfold activeFile
  cases hf : s.files.find? (fun f => f.id == s.activeFileId) with
  | some f =>
    exact ⟨f, rfl, List.mem_of_find?_eq_some hf⟩
  | none =>
    cases hfs : s.files with
    | nil => exact absurd hfs h
    | cons a t =>
      exact ⟨a, rfl, List.mem_cons_self a t⟩

/-- C6 counterexample: the claim says the active-file pointer always either
names a file of the visible snapshot or has been repointed to the first
remaining file.  But undoing the creation of the currently active file does
not repoint anything: after `handleFileCreate initState "enemy.gd" "zz9zz9zz9"`
followed by `undo`, the pointer still reads `"zz9zz9zz9"` while the visible
snapshot holds only the ids `["1", "2"]`. -/
theorem active_pointer_counterexample :
    (undo (handleFileCreate initState "enemy.gd" "zz9zz9zz9")).activeFileId
      = "zz9zz9zz9" ∧
    (undo (handleFileCreate initState "enemy.gd" "zz9zz9zz9")).files.map
      (fun f => f.id) = ["1", "2"] ∧
    (undo (handleFileCreate initState "enemy.gd" "zz9zz9zz9")).activeFileId
      ∉ (undo (handleFileCreate initState "enemy.gd" "zz9zz9zz9")).files.map
        (fun f => f.id) := by
  refine ⟨rfl, rfl, ?_⟩
  decide

/-- C6 amended: deleting the active file while a file with a different id
exists repoints the pointer to the first remaining file, which then
resolves to a file of the new snapshot; and in general, on any non-empty
snapshot, resolving the active file always returns some file of the
snapshot (never `undefined`), the stored pointer itself possibly dangling
after an undo/redo. -/
theorem active_repoint_amended :
    (∀ (s : AppState) (id : String), 2 ≤ s.files.length →
      s.activeFileId = id → (∃ g ∈ s.files, g.id ≠ id) →
      ∃ f0, (s.files.filter (fun f => f.id != id)).head? = some f0 ∧
        (handleFileDelete s id).activeFileId = f0.id ∧
        (handleFileDelete s id).files = s.files.filter (fun f => f.id != id) ∧
        f0 ∈ (handleFileDelete s id).files ∧
        activeFile (handleFileDelete s id) = some f0) ∧
    (∀ s : AppState, s.files ≠ [] →
      ∃ f, activeFile s = some f ∧ f ∈ s.files) := by
  refine ⟨?_, activeFile_mem_of_ne_nil⟩
  intro s id hlen hact hex
  obtain ⟨g, hg, hgid⟩ := hex
  have hgf : g ∈ s.files.filter (fun f => f.id != id) :=
    List.mem_filter.mpr ⟨hg, by simpa using hgid⟩
  have hne : s.files.filter (fun f => f.id != id) ≠ [] :=
    List.ne_nil_of_mem hgf
  obtain ⟨f0, tl, heq⟩ := List.exists_cons_of_ne_nil hne
  have hnot : ¬ s.files.length ≤ 1 := by omega
  have hb : (s.activeFileId == id) = true := beq_iff_eq.mpr hact
  have hd : handleFileDelete s id
      = { pushToHistory s (s.files.filter (fun f => f.id != id)) with
          activeFileId := f0.id } := by
    unfold handleFileDelete
    rw [if_neg hnot]
    show (if (s.activeFileId == id) = true then _ else _) = _
    rw [if_pos hb, heq]
    rfl
  have hfiles : (handleFileDelete s id).files
      = f0 :: tl := by
    rw [hd]
    show s.files.filter (fun f => f.id != id) = f0 :: tl
    exact heq
  refine ⟨f0, by rw [heq]; rfl, by rw [hd], ?_, ?_, ?_⟩
  · rw [hfiles, heq]
  · rw [hfiles]
    exact List.mem_cons_self f0 tl
  · unfold activeFile
    rw [hfiles]
    have hid : (handleFileDelete s id).activeFileId = f0.id := by rw [hd]
    rw [hid, List.find?_cons_of_pos tl (beq_self_eq_true f0.id)]
    rfl

/-- C6 amended witness: deleting the active file `"1"` from the initial
state repoints the pointer to `"2"` and resolution succeeds, and on the
initial state resolution returns a file of the snapshot. -/
theorem active_repoint_amended_witness :
    (∃ f0, (initState.files.filter (fun f => f.id != "1")).head? = some f0 ∧
      (handleFileDelete initState "1").activeFileId = f0.id ∧
      (handleFileDelete initState "1").files
        = initState.files.filter (fun f => f.id != "1") ∧
      f0 ∈ (handleFileDelete initState "1").files ∧
      activeFile (handleFileDelete initState "1") = some f0) ∧
    (∃ f, activeFile initState = some f ∧ f ∈ initState.files) :=
  ⟨active_repoint_amended.1 initState "1" (by decide) rfl
    ⟨INITIAL_FILES.getD 1 default, by decide, by decide⟩,
   active_repoint_amended.2 initState (by decide)⟩

/-!
C9 and C10: id uniqueness and totality of active-file resolution along
reachable states.
-/

theorem updateFileContent_ids (fs : Snapshot) (id c : String) :
    (updateFileContent fs id c).map (fun f => f.id) = fs.map (fun f => f.id) := by
  unfold updateFileContent
  rw [List.map_map]
  apply List.map_congr_left
  intro f _
  simp only [Function.comp_apply]
  split <;> rfl

theorem goodSnap_update (fs : Snapshot) (id c : String) (h : GoodSnap fs) :
    GoodSnap (updateFileContent fs id c) := by
  constructor
  · intro hnil
    apply h.1
    have hm : fs.map (fun f => if f.id == id then { f with content := c } else f)
        = [] := hnil
    exact List.map_eq_nil_iff.mp hm
  · rw [updateFileContent_ids]
    exact h.2

theorem goodSnap_concat (fs : Snapshot) (nf : ProjectFile) (h : GoodSnap fs)
    (hid : nf.id ∉ fs.map (fun f => f.id)) : GoodSnap (fs ++ [nf]) := by
  refine ⟨by simp, ?_⟩
  rw [List.map_append]
  refine List.Nodup.append h.2 (by simp) ?_
  intro a ha ha2
  simp only [List.map_cons, List.map_nil, List.mem_singleton] at ha2
  subst ha2
  exact hid ha

theorem goodSnap_filter (fs : Snapshot) (x : String) (h : GoodSnap fs)
    (hlen : 2 ≤ fs.length) : GoodSnap (fs.filter (fun f => f.id != x)) := by
  constructor
  · cases fs with
    | nil => simp at hlen
    | cons a t =>
      cases t with
      | nil => simp at hlen
      | cons b rest =>
        by_cases hax : a.id = x
        · have hni : a.id ∉ (b :: rest).map (fun f => f.id) :=
            (List.nodup_cons.mp (by simpa using h.2)).1
          have hbx : b.id ≠ x := by
            intro hbxe
            apply hni
            rw [hax, ← hbxe]
            simp
          exact List.ne_nil_of_mem (List.mem_filter.mpr
            ⟨List.mem_cons_of_mem a (List.mem_cons_self b rest), by simpa using hbx⟩)
        · exact List.ne_nil_of_mem (List.mem_filter.mpr
            ⟨List.mem_cons_self a _, by simpa using hax⟩)
  · exact h.2.sublist ((List.filter_sublist fs).map (fun f => f.id))

theorem stateInv_files (s : AppState) (h : StateInv s) : GoodSnap s.files := by
  obtain ⟨⟨h1, h2, h3⟩, h4⟩ := h
  rw [← h3, List.getD_eq_getElem s.history [] h2]
  exact h4 _ (List.getElem_mem h2)

theorem stateInv_pushToHistory (s : AppState) (n : Snapshot) (h : StateInv s)
    (hn : GoodSnap n) : StateInv (pushToHistory s n) := by
  refine ⟨histInv_pushToHistory s n, ?_⟩
  intro snap hsnap
  have hm : snap ∈ s.history.take (s.historyIndex + 1) ++ [n] := hsnap
  rcases List.mem_append.mp hm with hm1 | hm1
  · exact h.2 snap (List.take_subset _ _ hm1)
  · rw [List.mem_singleton.mp hm1]
    exact hn

theorem stateInv_setActive (s : AppState) (v : String) (h : StateInv s) :
    StateInv { s with activeFileId := v } :=
  h

theorem stateInv_handleFileCreate (s : AppState) (name newId : String)
    (h : StateInv s) (hid : newId ∉ s.files.map (fun f => f.id)) :
    StateInv (handleFileCreate s name newId) :=
  stateInv_setActive _ newId
    (stateInv_pushToHistory s _ h (goodSnap_concat s.files _ (stateInv_files s h) hid))

theorem stateInv_updateActiveFileContent (s : AppState) (c : String)
    (h : StateInv s) : StateInv (updateActiveFileContent s c) :=
  stateInv_pushToHistory s _ h
    (goodSnap_update s.files s.activeFileId c (stateInv_files s h))

theorem stateInv_handleFileDelete (s : AppState) (id : String)
    (h : StateInv s) : StateInv (handleFileDelete s id) := by
  by_cases hlen : s.files.length ≤ 1
  · unfold handleFileDelete
    rw [if_pos hlen]
    exact h
  · have hg := goodSnap_filter s.files id (stateInv_files s h) (by omega)
    by_cases hact : (s.activeFileId == id) = true
    · have hd : handleFileDelete s id
          = { pushToHistory s (s.files.filter (fun f => f.id != id)) with
              activeFileId :=
                match (s.files.filter (fun f => f.id != id)).head? with
                | some f => f.id
                | none => s.activeFileId } := by
        unfold handleFileDelete
        rw [if_neg hlen]
        show (if (s.activeFileId == id) = true then _ else _) = _
        rw [if_pos hact]
      rw [hd]
      exact stateInv_setActive _ _ (stateInv_pushToHistory s _ h hg)
    · have hd : handleFileDelete s id
          = pushToHistory s (s.files.filter (fun f => f.id != id)) := by
        unfold handleFileDelete
        rw [if_neg hlen]
        show (if (s.activeFileId == id) = true then _ else _) = _
        rw [if_neg hact]
      rw [hd]
      exact stateInv_pushToHistory s _ h hg

theorem stateInv_undo (s : AppState) (h : StateInv s) : StateInv (undo s) := by
  obtain ⟨⟨h1, h2, h3⟩, h4⟩ := h
  unfold undo
  split
  · refine ⟨⟨h1, ?_, rfl⟩, h4⟩
    show s.historyIndex - 1 < s.history.length
    omega
  · exact ⟨⟨h1, h2, h3⟩, h4⟩

theorem stateInv_redo (s : AppState) (h : StateInv s) : StateInv (redo s) := by
  obtain ⟨⟨h1, h2, h3⟩, h4⟩ := h
  unfold redo
  split
  · refine ⟨⟨h1, ?_, rfl⟩, h4⟩
    show s.historyIndex + 1 < s.history.length
    omega
  · exact ⟨⟨h1, h2, h3⟩, h4⟩

theorem stateInv_initState : StateInv initState := by
  refine ⟨histInv_initState, ?_⟩
  intro snap hsnap
  rw [List.mem_singleton.mp hsnap]
  exact ⟨by decide, by decide⟩

theorem stateInv_run (ops : List Op) :
    ∀ s : AppState, StateInv s → freshAlong s ops = true →
      StateInv (run s ops) := by
  induction ops with
  | nil => intro s h _; exact h
  | cons op rest ih =>
    intro s h hf
    simp only [freshAlong, Bool.and_eq_true] at hf
    obtain ⟨hf1, hf2⟩ := hf
    refine ih (step s op) ?_ hf2
    cases op with
    | create name newId =>
      have hid : newId ∉ s.files.map (fun f => f.id) := by
        simpa [List.elem_iff] using hf1
      exact stateInv_handleFileCreate s name newId h hid
    | update c => exact stateInv_updateActiveFileContent s c h
    | delete id => exact stateInv_handleFileDelete s id h
    | select id => exact stateInv_setActive s id h
    | undo => exact stateInv_undo s h
    | redo => exact stateInv_redo s h

/-- C9: along any operation sequence from the initial state in which every
id handed to file creation is fresh for the then-current snapshot (the
property the random `simpleId()` is relied upon to deliver), the visible
snapshot always has pairwise-distinct file ids. -/
theorem file_ids_nodup_reachable (ops : List Op)
    (h : freshAlong initState ops = true) :
    ((run initState ops).files.map (fun f => f.id)).Nodup :=
  (stateInv_files _ (stateInv_run ops initState stateInv_initState h)).2

/-- C9 witness: a concrete create with a fresh id keeps ids distinct. -/
theorem file_ids_nodup_reachable_witness :
    freshAlong initState [Op.create "enemy.gd" "k3k3k3k3k"] = true ∧
    ((run initState [Op.create "enemy.gd" "k3k3k3k3k"]).files.map
      (fun f => f.id)).Nodup :=
  ⟨by decide, file_ids_nodup_reachable _ (by decide)⟩

/-- C10: along any operation sequence from the initial two-file state with
fresh creation ids, the visible file list stays non-empty and resolving the
active file always returns some file of the visible snapshot; when the
stored id is absent from it, resolution falls back to `files[0]`. -/
theorem activeFile_total_reachable (ops : List Op)
    (h : freshAlong initState ops = true) :
    (run initState ops).files ≠ [] ∧
    (∃ f, activeFile (run initState ops) = some f ∧
      f ∈ (run initState ops).files) ∧
    ((run initState ops).files.find?
        (fun f => f.id == (run initState ops).activeFileId) = none →
      activeFile (run initState ops) = (run initState ops).files.head?) := by
  have hne := (stateInv_files _ (stateInv_run ops initState stateInv_initState h)).1
  refine ⟨hne, activeFile_mem_of_ne_nil _ hne, fun hf => ?_⟩
  unfold activeFile
  rw [hf]
  rfl

/-- C10 witness: creating a file and undoing the creation (which leaves the
pointer dangling) still resolves, on a non-empty list. -/
theorem activeFile_total_reachable_witness :
    freshAlong initState [Op.create "enemy.gd" "q8q8q8q8q", Op.undo] = true ∧
    (run initState [Op.create "enemy.gd" "q8q8q8q8q", Op.undo]).files ≠ [] :=
  ⟨by decide, (activeFile_total_reachable _ (by decide)).1⟩
